import Mathlib

/-!
Verification of the synced-lyrics core of the repository: the data model
(`ytmusicapi/providers/base.py`) and the aggregating searcher with its LRC
parser and synced-classifier (`ytmusicapi/providers/searcher.py`).

Raw lyric text is modelled as `List Char` (Python `str`); Python's arbitrary
precision non-negative offsets are `Nat`.  Digits are modelled as ASCII digits
(`Char.isDigit`), matching the intended inputs of the regexes.  A provider's
externally observable behaviour on one query is `FetchResult`: it returns text,
returns a falsy value (`None`), or raises; the concrete network providers are
out of scope, so a provider is a name together with such a behaviour function.
-/

namespace YTM

/-- A single line of synced lyrics (`LyricLine` in `base.py`). -/
structure LyricLine where
  timestamp : List Char
  text : List Char
  milliseconds : Nat
deriving DecidableEq, Repr

/-- Container for synced lyrics data (`SyncedLyrics` in `base.py`). -/
structure SyncedLyrics where
  track : String
  artist : String
  lrc : List Char
  lines : List LyricLine
  source : String
deriving DecidableEq, Repr

/-- The loop body of `SyncedLyrics.get_line_at`: walk the lines, remembering
the last one whose offset is within `t`, stopping at the first that exceeds
`t` (the `else: break`). -/
def lineLoop (t : Nat) : List LyricLine → Option LyricLine → Option LyricLine
  | [], cur => cur
  | l :: ls, cur =>
    if l.milliseconds ≤ t then lineLoop t ls (some l) else cur

/-- `SyncedLyrics.get_line_at` from `base.py`: the lyric line at a given
playback position. -/
def SyncedLyrics.get_line_at (d : SyncedLyrics) (t : Nat) : Option LyricLine :=
  lineLoop t d.lines none

/-- Python whitespace stripped by `str.strip()` (ASCII part). -/
def pyWs (c : Char) : Bool :=
  c = ' ' || c = '\t' || c = '\n' || c = '\r' || c = '\x0b' || c = '\x0c'

/-- Strip leading whitespace. -/
def lstripWs (l : List Char) : List Char := l.dropWhile pyWs

/-- Strip trailing whitespace. -/
def rstripWs (l : List Char) : List Char := (l.reverse.dropWhile pyWs).reverse

/-- Python `str.strip()`. -/
def pyStrip (l : List Char) : List Char := rstripWs (lstripWs l)

/-- Python `str.split(chr(10))`: split on every newline, keeping empty pieces. -/
def splitNl : List Char → List (List Char)
  | [] => [[]]
  | c :: rest =>
    if c = '\n' then [] :: splitNl rest
    else
      match splitNl rest with
      | [] => [[c]]
      | l :: ls => (c :: l) :: ls

/-- Numeric value of an ASCII digit character. -/
def digitVal (c : Char) : Nat := c.toNat - '0'.toNat

/-- Python `int` on a string of ASCII digits. -/
def natOfDigits (l : List Char) : Nat :=
  l.foldl (fun acc c => acc * 10 + digitVal c) 0

/-- Separator characters accepted between seconds and the fraction
(the regex class matching a dot or a colon). -/
def isSep (c : Char) : Bool := c = '.' || c = ':'

/-- Python `ms.ljust(3, chr(48))[:3]`: right-pad the fraction digits with
zeros to 3 characters, then truncate to 3. -/
def norm3 (frac : List Char) : List Char :=
  (frac ++ List.replicate (3 - frac.length) '0').take 3

/-- The tail of the timestamp regex after the seconds group: one or more
separator characters, then a 2- or 3-digit fraction, then a closing bracket.
Backtracking never helps here (separators and digits are disjoint and the
closing bracket is neither), so a maximal-munch reading is exact: the fraction
is the maximal digit run after the maximal separator run, and it must have
length 2 or 3 and be followed by the closing bracket.  Returns the fraction
digits and the text after the bracket. -/
def parseFrac (l : List Char) : Option (List Char × List Char) :=
  let ds := l.takeWhile Char.isDigit
  if ds.length = 2 || ds.length = 3 then
    match l.dropWhile Char.isDigit with
    | ']' :: tail => some (ds, tail)
    | _ => none
  else none

/-- Consume the one-or-more separator run, then the fraction (see
`parseFrac`). -/
def parseSepFrac : List Char → Option (List Char × List Char)
  | [] => none
  | c :: rest => if isSep c then parseFrac (rest.dropWhile isSep) else none

/-- `re.match` of the LRC tag pattern against one (already stripped) line,
followed by the construction of the `LyricLine` in `_parse_lrc`'s loop body:
an opening bracket, two digit minutes, a colon, two digit seconds, separators
and fraction per `parseSepFrac`; the remaining text is captured whole (input
lines are newline-free, having been produced by `splitNl`) and stripped.
`offsetMs` uses the 3-normalized fraction; the display timestamp keeps only
its first two digits. -/
def matchLine : List Char → Option LyricLine
  | c0 :: m1 :: m2 :: c3 :: s1 :: s2 :: rest =>
    if c0 = '[' && m1.isDigit && m2.isDigit && c3 = ':' && s1.isDigit && s2.isDigit then
      match parseSepFrac rest with
      | some (frac, tail) =>
        let padded := norm3 frac
        some { timestamp := ['[', m1, m2, ':', s1, s2, '.'] ++ padded.take 2 ++ [']'],
               text := pyStrip tail,
               milliseconds :=
                 (digitVal m1 * 10 + digitVal m2) * 60000 +
                 (digitVal s1 * 10 + digitVal s2) * 1000 +
                 natOfDigits padded }
      | none => none
    else none
  | _ => none

/-- One iteration of `_parse_lrc`'s loop: strip the raw line, skip it when
blank, otherwise try the tag match (unmatched lines are skipped). -/
def parse_line (raw : List Char) : Option LyricLine :=
  let line := pyStrip raw
  if line.isEmpty then none else matchLine line

/-- Comparison key of the final `sorted(lines, key=...)`: offset order. -/
def msLe (a b : LyricLine) : Prop := a.milliseconds ≤ b.milliseconds

/-- The predicate "this line's offset is within time `t`", used to state the
lookup semantics of `get_line_at`. -/
def withinT (t : Nat) (l : LyricLine) : Bool := l.milliseconds ≤ t

/-- Strict offset order, used to state order-independence. -/
def msLt (a b : LyricLine) : Prop := a.milliseconds < b.milliseconds

instance : DecidableRel msLe := fun a b => Nat.decLe a.milliseconds b.milliseconds

instance : DecidableRel msLt := fun a b => Nat.decLt a.milliseconds b.milliseconds

instance : IsTotal LyricLine msLe := ⟨fun a b => Nat.le_total a.milliseconds b.milliseconds⟩

instance : IsTrans LyricLine msLe := ⟨fun _ _ _ h1 h2 => Nat.le_trans h1 h2⟩

instance : IsTrans LyricLine msLt := ⟨fun _ _ _ h1 h2 => Nat.lt_trans h1 h2⟩

instance : IsAntisymm LyricLine msLt :=
  ⟨fun _ _ h1 h2 => absurd (Nat.lt_trans h1 h2) (Nat.lt_irrefl _)⟩

/-- `SyncedLyricsSearcher._parse_lrc`: split the text into lines, parse each,
and stable-sort the parsed lines by offset (Python's `sorted` is the stable
sort, which `List.insertionSort` with this relation computes exactly). -/
def _parse_lrc (s : List Char) : List LyricLine :=
  List.insertionSort msLe ((splitNl s).filterMap parse_line)

/-- `tsHere l` holds when the synced-classifier regex matches at the start of
`l`: an opening bracket, two digits, a colon, two digits. -/
def tsHere : List Char → Bool
  | c0 :: c1 :: c2 :: c3 :: c4 :: c5 :: _ =>
    c0 = '[' && c1.isDigit && c2.isDigit && c3 = ':' && c4.isDigit && c5.isDigit
  | _ => false

/-- `SyncedLyricsSearcher._is_synced`: `re.search` scans every position for
the timestamp-opening pattern. -/
def _is_synced : List Char → Bool
  | [] => false
  | c :: rest => tsHere (c :: rest) || _is_synced rest

/-- The externally observable outcome of one `provider.get_lyrics` call:
lyric text (possibly empty, both `""` and `None` being falsy in the source),
absence, or a raised exception. -/
inductive FetchResult
  | found (s : List Char)
  | absent
  | raised
deriving DecidableEq, Repr

/-- A provider's behaviour: `(track, artist) ↦ FetchResult`. -/
def Fetch : Type := String → String → FetchResult

/-- The static registry keys of `SyncedLyricsSearcher.PROVIDERS`, in
insertion order. -/
def PROVIDER_NAMES : List String := ["lrclib", "netease", "megalobiz"]

/-- `SyncedLyricsSearcher.DEFAULT_ORDER`. -/
def DEFAULT_ORDER : List String := ["lrclib", "netease", "megalobiz"]

/-- `SyncedLyricsSearcher.available_providers`. -/
def available_providers : List String := PROVIDER_NAMES

/-- `SyncedLyricsSearcher.__init__`'s loop: keep each requested name that is a
registry key, pairing it with a fresh instance (behaviour `impl name`), and
silently drop the rest.  `impl` assigns each registry name its external
behaviour, network transport being out of scope. -/
def init_providers (impl : String → Fetch) : List String → List (String × Fetch)
  | [] => []
  | n :: rest =>
    if PROVIDER_NAMES.contains n then (n, impl n) :: init_providers impl rest
    else init_providers impl rest

/-- The document `search` and `search_all` build from accepted raw text. -/
def mkDoc (track artist : String) (lrc : List Char) (src : String) : SyncedLyrics :=
  { track := track, artist := artist, lrc := lrc,
    lines := if _is_synced lrc then _parse_lrc lrc else [],
    source := src }

/-- `SyncedLyricsSearcher.search`: walk providers in order; a raised
exception, absence, or falsy (empty) text moves on to the next provider; in
synced-only mode non-synced text also moves on; otherwise return the document
stamped with the current provider's name. -/
def search (ps : List (String × Fetch)) (track artist : String)
    (synced_only : Bool) : Option SyncedLyrics :=
  match ps with
  | [] => none
  | (pname, fetch) :: rest =>
    match fetch track artist with
    | FetchResult.found lrc =>
      if lrc.isEmpty then search rest track artist synced_only
      else if synced_only && !(_is_synced lrc) then search rest track artist synced_only
      else some (mkDoc track artist lrc pname)
    | FetchResult.absent => search rest track artist synced_only
    | FetchResult.raised => search rest track artist synced_only

/-- `SyncedLyricsSearcher.search_all`: same per-provider handling, but no
early return and no synced-only gate; every provider returning truthy text
contributes one document, in order. -/
def search_all (ps : List (String × Fetch)) (track artist : String) :
    List SyncedLyrics :=
  match ps with
  | [] => []
  | (pname, fetch) :: rest =>
    match fetch track artist with
    | FetchResult.found lrc =>
      if lrc.isEmpty then search_all rest track artist
      else mkDoc track artist lrc pname :: search_all rest track artist
    | FetchResult.absent => search_all rest track artist
    | FetchResult.raised => search_all rest track artist

/-- Acceptance of one provider's behaviour for a given query and mode, as the
spec words it: the text returned, provided it is truthy and (in synced-only
mode) synced; otherwise nothing. -/
def accepted (fetch : Fetch) (track artist : String) (synced_only : Bool) :
    Option (List Char) :=
  match fetch track artist with
  | FetchResult.found lrc =>
    if lrc.isEmpty then none
    else if synced_only && !(_is_synced lrc) then none
    else some lrc
  | FetchResult.absent => none
  | FetchResult.raised => none

/-- Join lines with newlines (to state properties of whole input texts). -/
def joinNl : List (List Char) → List Char
  | [] => []
  | [l] => l
  | l :: ls => l ++ '\n' :: joinNl ls

/-- Behaviour: always absent. -/
def fAbsent : Fetch := fun _ _ => FetchResult.absent

/-- Behaviour: always raises. -/
def fRaises : Fetch := fun _ _ => FetchResult.raised

/-- Behaviour: returns the empty string. -/
def fEmpty : Fetch := fun _ _ => FetchResult.found []

/-- Behaviour: returns plain (non-synced) text. -/
def fPlain : Fetch := fun _ _ => FetchResult.found ("Just plain text".data)

/-- Behaviour: returns a one-line synced lyric. -/
def fSynced : Fetch := fun _ _ => FetchResult.found ("[00:01.00]Hello".data)

/-- Behaviour: returns a different one-line synced lyric. -/
def fSynced2 : Fetch := fun _ _ => FetchResult.found ("[00:02.00]World".data)

/-- Concrete lyric line at offset 1000. -/
def exLineA : LyricLine :=
  { timestamp := "[00:01.00]".data, text := "A".data, milliseconds := 1000 }

/-- Concrete lyric line at offset 5000. -/
def exLineB : LyricLine :=
  { timestamp := "[00:05.00]".data, text := "B".data, milliseconds := 5000 }

/-- Concrete document with line offsets 1000 and 5000. -/
def exDoc : SyncedLyrics :=
  { track := "T", artist := "A", lrc := "[00:01.00]A\n[00:05.00]B".data,
    lines := [exLineA, exLineB], source := "lrclib" }

/-! Helper lemmas shared by several claims. -/

/-- Unfolding `search` when the head provider reports absence. -/
theorem search_cons_absent (pname : String) (fetch : Fetch)
    (rest : List (String × Fetch)) (track artist : String) (so : Bool)
    (hf : fetch track artist = FetchResult.absent) :
    search ((pname, fetch) :: rest) track artist so =
      search rest track artist so := by
  simp [search, hf]

/-- Unfolding `search` when the head provider raises. -/
theorem search_cons_raised (pname : String) (fetch : Fetch)
    (rest : List (String × Fetch)) (track artist : String) (so : Bool)
    (hf : fetch track artist = FetchResult.raised) :
    search ((pname, fetch) :: rest) track artist so =
      search rest track artist so := by
  simp [search, hf]

/-- Unfolding `search` when the head provider returns text. -/
theorem search_cons_found (pname : String) (fetch : Fetch)
    (rest : List (String × Fetch)) (track artist : String) (so : Bool)
    (lrc : List Char) (hf : fetch track artist = FetchResult.found lrc) :
    search ((pname, fetch) :: rest) track artist so =
      if lrc.isEmpty then search rest track artist so
      else if so && !(_is_synced lrc) then search rest track artist so
      else some (mkDoc track artist lrc pname) := by
  simp only [search, hf]

/-- Unfolding `search_all` when the head provider reports absence. -/
theorem search_all_cons_absent (pname : String) (fetch : Fetch)
    (rest : List (String × Fetch)) (track artist : String)
    (hf : fetch track artist = FetchResult.absent) :
    search_all ((pname, fetch) :: rest) track artist =
      search_all rest track artist := by
  simp [search_all, hf]

/-- Unfolding `search_all` when the head provider raises. -/
theorem search_all_cons_raised (pname : String) (fetch : Fetch)
    (rest : List (String × Fetch)) (track artist : String)
    (hf : fetch track artist = FetchResult.raised) :
    search_all ((pname, fetch) :: rest) track artist =
      search_all rest track artist := by
  simp [search_all, hf]

/-- Unfolding `search_all` when the head provider returns text. -/
theorem search_all_cons_found (pname : String) (fetch : Fetch)
    (rest : List (String × Fetch)) (track artist : String)
    (lrc : List Char) (hf : fetch track artist = FetchResult.found lrc) :
    search_all ((pname, fetch) :: rest) track artist =
      if lrc.isEmpty then search_all rest track artist
      else mkDoc track artist lrc pname :: search_all rest track artist := by
  simp only [search_all, hf]

/-- A provider whose behaviour is not accepted for this query is skipped by
`search`. -/
theorem search_cons_none (q : String × Fetch) (ps : List (String × Fetch))
    (track artist : String) (so : Bool)
    (h : accepted q.2 track artist so = none) :
    search (q :: ps) track artist so = search ps track artist so := by
  obtain ⟨pname, fetch⟩ := q
  simp only [search]
  cases hf : fetch track artist with
  | absent => rfl
  | raised => rfl
  | found lrc =>
    simp only [accepted, hf] at h
    by_cases he : lrc.isEmpty
    · simp [he]
    · by_cases hs : so && !(_is_synced lrc)
      · simp [he, hs]
      · simp [he, hs] at h

/-- A provider whose behaviour is accepted makes `search` return its
document at once. -/
theorem search_cons_some (pname : String) (fetch : Fetch)
    (ps : List (String × Fetch)) (track artist : String) (so : Bool)
    (lrc : List Char) (h : accepted fetch track artist so = some lrc) :
    search ((pname, fetch) :: ps) track artist so =
      some (mkDoc track artist lrc pname) := by
  simp only [search]
  cases hf : fetch track artist with
  | absent => simp [accepted, hf] at h
  | raised => simp [accepted, hf] at h
  | found l =>
    simp only [accepted, hf] at h
    by_cases he : l.isEmpty
    · simp [he] at h
    · by_cases hs : so && !(_is_synced l)
      · simp [he, hs] at h
      · simp only [he, hs, if_neg, if_false, Bool.false_eq_true] at h ⊢
        simp only [Option.some.injEq] at h
        simp [he, hs, h]

/-- Claim C9: construction keeps exactly the recognized names, in their
original relative order, dropping unrecognized ones and keeping duplicates
(shown by the concrete duplicated-name run). -/
theorem init_providers_filter_order :
    (∀ (impl : String → Fetch) (names : List String),
        (init_providers impl names).map Prod.fst =
          names.filter (fun n => PROVIDER_NAMES.contains n))
  ∧ (init_providers (fun _ => fAbsent) ["lrclib", "bogus", "lrclib"]).map Prod.fst
      = ["lrclib", "lrclib"] := by
  constructor
  · intro impl names
    induction names with
    | nil => rfl
    | cons n rest ih =>
      by_cases h : n ∈ PROVIDER_NAMES
      · simp [init_providers, List.filter_cons, h, ih]
      · simp [init_providers, List.filter_cons, h, ih]
  · rfl

/-- Claim C1: `search` returns the document of the first provider in
configured order whose result is acceptable, stamped with that provider's
name and the query strings; the providers after it (arbitrary `post`) do not
influence the result. -/
theorem search_first_acceptable_wins
    (pre post : List (String × Fetch)) (pname : String) (fetch : Fetch)
    (track artist : String) (so : Bool) (lrc : List Char)
    (hpre : ∀ q ∈ pre, accepted q.2 track artist so = none)
    (hp : accepted fetch track artist so = some lrc) :
    search (pre ++ (pname, fetch) :: post) track artist so =
      some { track := track, artist := artist, lrc := lrc,
             lines := if _is_synced lrc then _parse_lrc lrc else [],
             source := pname } := by
  induction pre with
  | nil =>
    simpa [mkDoc] using search_cons_some pname fetch post track artist so lrc hp
  | cons q pre ih =>
    rw [List.cons_append,
      search_cons_none q _ track artist so (hpre q (List.mem_cons_self q pre))]
    exact ih (fun x hx => hpre x (List.mem_cons_of_mem _ hx))

/-- Witness for C1: an absent provider first, an accepted synced provider
second, and a provider that would also have matched last. -/
theorem search_first_acceptable_wins_witness :
    search [("lrclib", fAbsent), ("netease", fSynced), ("megalobiz", fSynced2)]
        "t" "a" true =
      some { track := "t", artist := "a", lrc := "[00:01.00]Hello".data,
             lines := if _is_synced ("[00:01.00]Hello".data)
                      then _parse_lrc ("[00:01.00]Hello".data) else [],
             source := "netease" } :=
  search_first_acceptable_wins [("lrclib", fAbsent)] [("megalobiz", fSynced2)]
    "netease" fSynced "t" "a" true ("[00:01.00]Hello".data)
    (by decide) (by decide)

/-- Claim C2: with the synced-only flag, a provider returning non-empty text
classified as plain is skipped, and any document `search` returns in this
mode has synced raw text. -/
theorem search_synced_only_never_plain :
    (∀ (pname : String) (fetch : Fetch) (rest : List (String × Fetch))
        (track artist : String) (lrc : List Char),
        fetch track artist = FetchResult.found lrc → lrc.isEmpty = false →
        _is_synced lrc = false →
        search ((pname, fetch) :: rest) track artist true =
          search rest track artist true)
  ∧ (∀ (ps : List (String × Fetch)) (track artist : String) (d : SyncedLyrics),
        search ps track artist true = some d → _is_synced d.lrc = true) := by
  constructor
  · intro pname fetch rest track artist lrc hf he hs
    simp [search, hf, he, hs]
  · intro ps
    induction ps with
    | nil => intro t a d h; simp [search] at h
    | cons q rest ih =>
      obtain ⟨pname, fetch⟩ := q
      intro t a d h
      cases hf : fetch t a
      case absent => rw [search_cons_absent pname fetch rest t a true hf] at h
                     exact ih t a d h
      case raised => rw [search_cons_raised pname fetch rest t a true hf] at h
                     exact ih t a d h
      case found lrc =>
        rw [search_cons_found pname fetch rest t a true lrc hf] at h
        by_cases he : lrc.isEmpty
        · rw [if_pos he] at h; exact ih t a d h
        · rw [if_neg he] at h
          by_cases hs : _is_synced lrc
          · rw [if_neg (by simp [hs])] at h
            obtain rfl : mkDoc t a lrc pname = d := Option.some.inj h
            simpa [mkDoc] using hs
          · rw [if_pos (by simp [hs])] at h
            exact ih t a d h

/-- Witness for C2: a plain-text provider is skipped in synced-only mode. -/
theorem search_synced_only_never_plain_witness :
    search [("lrclib", fPlain), ("netease", fSynced)] "t" "a" true =
      search [("netease", fSynced)] "t" "a" true :=
  search_synced_only_never_plain.1 "lrclib" fPlain [("netease", fSynced)]
    "t" "a" ("Just plain text".data) rfl (by decide) (by decide)

/-- Claim C7: a provider that reports absence or raises is skipped, and when
no configured provider is acceptable, `search` returns `none` rather than
failing. -/
theorem search_failure_tolerant :
    (∀ (pname : String) (fetch : Fetch) (rest : List (String × Fetch))
        (track artist : String) (so : Bool),
        fetch track artist = FetchResult.absent ∨
          fetch track artist = FetchResult.raised →
        search ((pname, fetch) :: rest) track artist so =
          search rest track artist so)
  ∧ (∀ (ps : List (String × Fetch)) (track artist : String) (so : Bool),
        (∀ q ∈ ps, accepted q.2 track artist so = none) →
        search ps track artist so = none) := by
  constructor
  · rintro pname fetch rest track artist so (h | h) <;> simp [search, h]
  · intro ps track artist so h
    induction ps with
    | nil => rfl
    | cons q rest ih =>
      rw [search_cons_none q rest track artist so (h q (List.mem_cons_self q rest))]
      exact ih (fun x hx => h x (List.mem_cons_of_mem _ hx))

/-- Witness for C7: a raising provider is skipped; a raising, an absent and a
plain provider together yield `none` in synced-only mode. -/
theorem search_failure_tolerant_witness :
    search [("lrclib", fRaises), ("netease", fAbsent)] "t" "a" true =
        search [("netease", fAbsent)] "t" "a" true
    ∧ search [("lrclib", fRaises), ("netease", fAbsent), ("megalobiz", fPlain)]
        "t" "a" true = none :=
  ⟨search_failure_tolerant.1 "lrclib" fRaises [("netease", fAbsent)]
      "t" "a" true (Or.inr rfl),
   search_failure_tolerant.2
      [("lrclib", fRaises), ("netease", fAbsent), ("megalobiz", fPlain)]
      "t" "a" true (by decide)⟩

/-- Claim C10: a provider returning the empty string is skipped by both
`search` and `search_all`, exactly like an absent one, so every returned
document has non-empty raw text. -/
theorem empty_text_treated_as_absent :
    (∀ (pname : String) (fetch : Fetch) (rest : List (String × Fetch))
        (track artist : String) (so : Bool),
        fetch track artist = FetchResult.found [] →
        search ((pname, fetch) :: rest) track artist so =
            search rest track artist so
        ∧ search_all ((pname, fetch) :: rest) track artist =
            search_all rest track artist)
  ∧ (∀ (ps : List (String × Fetch)) (track artist : String) (so : Bool)
        (d : SyncedLyrics), search ps track artist so = some d → d.lrc ≠ [])
  ∧ (∀ (ps : List (String × Fetch)) (track artist : String) (d : SyncedLyrics),
        d ∈ search_all ps track artist → d.lrc ≠ []) := by
  refine ⟨?_, ?_, ?_⟩
  · intro pname fetch rest track artist so hf
    constructor
    · simp [search, hf]
    · simp [search_all, hf]
  · intro ps track artist so
    induction ps with
    | nil => intro d h; simp [search] at h
    | cons q rest ih =>
      obtain ⟨pname, fetch⟩ := q
      intro d h
      cases hf : fetch track artist
      case absent => rw [search_cons_absent pname fetch rest track artist so hf] at h
                     exact ih d h
      case raised => rw [search_cons_raised pname fetch rest track artist so hf] at h
                     exact ih d h
      case found lrc =>
        rw [search_cons_found pname fetch rest track artist so lrc hf] at h
        by_cases he : lrc.isEmpty
        · rw [if_pos he] at h; exact ih d h
        · rw [if_neg he] at h
          by_cases hs : so && !(_is_synced lrc)
          · rw [if_pos hs] at h; exact ih d h
          · rw [if_neg hs] at h
            obtain rfl : mkDoc track artist lrc pname = d := Option.some.inj h
            simpa [mkDoc, List.isEmpty_iff] using he
  · intro ps track artist
    induction ps with
    | nil => intro d h; simp [search_all] at h
    | cons q rest ih =>
      obtain ⟨pname, fetch⟩ := q
      intro d h
      cases hf : fetch track artist
      case absent => rw [search_all_cons_absent pname fetch rest track artist hf] at h
                     exact ih d h
      case raised => rw [search_all_cons_raised pname fetch rest track artist hf] at h
                     exact ih d h
      case found lrc =>
        rw [search_all_cons_found pname fetch rest track artist lrc hf] at h
        by_cases he : lrc.isEmpty
        · rw [if_pos he] at h; exact ih d h
        · rw [if_neg he] at h
          rcases List.mem_cons.mp h with h1 | h2
          · rw [h1]
            simpa [mkDoc, List.isEmpty_iff] using he
          · exact ih d h2

/-- Witness for C10: an empty-string provider is skipped by both operations,
and concrete returned documents have non-empty text. -/
theorem empty_text_treated_as_absent_witness :
    (search [("lrclib", fEmpty), ("netease", fSynced)] "t" "a" true =
        search [("netease", fSynced)] "t" "a" true
      ∧ search_all [("lrclib", fEmpty), ("netease", fSynced)] "t" "a" =
        search_all [("netease", fSynced)] "t" "a")
    ∧ (mkDoc "t" "a" ("[00:01.00]Hello".data) "netease").lrc ≠ [] :=
  ⟨empty_text_treated_as_absent.1 "lrclib" fEmpty [("netease", fSynced)]
      "t" "a" true rfl,
   empty_text_treated_as_absent.2.1 [("netease", fSynced)] "t" "a" true
      (mkDoc "t" "a" ("[00:01.00]Hello".data) "netease") (by decide)⟩

/-- Claim C8: `search_all` returns exactly one document per provider that
produced non-empty text, in configured order, with no synced-only gate; a
non-synced text still contributes a document, with empty parsed lines. -/
theorem search_all_one_per_text_provider :
    (∀ (ps : List (String × Fetch)) (track artist : String),
        search_all ps track artist =
          ps.filterMap (fun q =>
            match q.2 track artist with
            | FetchResult.found lrc =>
              if lrc.isEmpty then none else some (mkDoc track artist lrc q.1)
            | FetchResult.absent => none
            | FetchResult.raised => none))
  ∧ (∀ (ps : List (String × Fetch)) (track artist : String) (d : SyncedLyrics),
        d ∈ search_all ps track artist →
        (_is_synced d.lrc = false → d.lines = [])
        ∧ (_is_synced d.lrc = true → d.lines = _parse_lrc d.lrc)) := by
  constructor
  · intro ps track artist
    induction ps with
    | nil => rfl
    | cons q rest ih =>
      obtain ⟨pname, fetch⟩ := q
      rw [List.filterMap_cons]
      cases hf : fetch track artist
      case absent =>
        rw [search_all_cons_absent pname fetch rest track artist hf]
        simpa [hf] using ih
      case raised =>
        rw [search_all_cons_raised pname fetch rest track artist hf]
        simpa [hf] using ih
      case found lrc =>
        rw [search_all_cons_found pname fetch rest track artist lrc hf]
        by_cases he : lrc.isEmpty
        · simp [hf, he, ih]
        · simp [hf, he, ih]
  · intro ps track artist
    induction ps with
    | nil => intro d h; simp [search_all] at h
    | cons q rest ih =>
      obtain ⟨pname, fetch⟩ := q
      intro d h
      cases hf : fetch track artist
      case absent => rw [search_all_cons_absent pname fetch rest track artist hf] at h
                     exact ih d h
      case raised => rw [search_all_cons_raised pname fetch rest track artist hf] at h
                     exact ih d h
      case found lrc =>
        rw [search_all_cons_found pname fetch rest track artist lrc hf] at h
        by_cases he : lrc.isEmpty
        · rw [if_pos he] at h; exact ih d h
        · rw [if_neg he] at h
          rcases List.mem_cons.mp h with h1 | h2
          · subst h1
            constructor
            · intro hs
              simp only [mkDoc] at hs ⊢
              simp [hs]
            · intro hs
              simp only [mkDoc] at hs ⊢
              simp [hs]
          · exact ih d h2

/-- Witness for C8: with a plain provider and a synced provider, both
contribute, in order; the plain one's document has empty lines. -/
theorem search_all_one_per_text_provider_witness :
    search_all [("lrclib", fPlain), ("netease", fSynced), ("megalobiz", fAbsent)]
        "t" "a" =
      [mkDoc "t" "a" ("Just plain text".data) "lrclib",
       mkDoc "t" "a" ("[00:01.00]Hello".data) "netease"]
    ∧ (mkDoc "t" "a" ("Just plain text".data) "lrclib").lines = [] :=
  ⟨by decide,
   (search_all_one_per_text_provider.2
      [("lrclib", fPlain)] "t" "a"
      (mkDoc "t" "a" ("Just plain text".data) "lrclib") (by decide)).1
    (by decide)⟩

/-- Inversion of the classifier's head test: a successful `tsHere` exposes
the bracket, the two digit pairs and the colon. -/
theorem tsHere_exists (s : List Char) (h : tsHere s = true) :
    ∃ a b c d suf, a.isDigit = true ∧ b.isDigit = true ∧ c.isDigit = true ∧
      d.isDigit = true ∧ s = '[' :: a :: b :: ':' :: c :: d :: suf := by
  rcases s with _ | ⟨c0, s⟩
  · simp [tsHere] at h
  rcases s with _ | ⟨c1, s⟩
  · simp [tsHere] at h
  rcases s with _ | ⟨c2, s⟩
  · simp [tsHere] at h
  rcases s with _ | ⟨c3, s⟩
  · simp [tsHere] at h
  rcases s with _ | ⟨c4, s⟩
  · simp [tsHere] at h
  rcases s with _ | ⟨c5, s⟩
  · simp [tsHere] at h
  simp only [tsHere, Bool.and_eq_true, decide_eq_true_eq] at h
  obtain ⟨⟨⟨⟨⟨h0, h1⟩, h2⟩, h3⟩, h4⟩, h5⟩ := h
  subst h0
  subst h3
  exact ⟨c1, c2, c4, c5, s, h1, h2, h4, h5, rfl⟩

/-- The classifier accepts any text containing the bracket pattern. -/
theorem is_synced_of_pattern (pre : List Char) (a b c d : Char) (suf : List Char)
    (ha : a.isDigit = true) (hb : b.isDigit = true) (hc : c.isDigit = true)
    (hd : d.isDigit = true) :
    _is_synced (pre ++ '[' :: a :: b :: ':' :: c :: d :: suf) = true := by
  induction pre with
  | nil => simp [_is_synced, tsHere, ha, hb, hc, hd]
  | cons x pre ih =>
    rw [List.cons_append, _is_synced, Bool.or_eq_true]
    exact Or.inr ih

/-- A text the classifier accepts contains the bracket pattern somewhere. -/
theorem is_synced_exists (s : List Char) (h : _is_synced s = true) :
    ∃ pre a b c d suf, a.isDigit = true ∧ b.isDigit = true ∧ c.isDigit = true ∧
      d.isDigit = true ∧ s = pre ++ '[' :: a :: b :: ':' :: c :: d :: suf := by
  induction s with
  | nil => simp [_is_synced] at h
  | cons c0 rest ih =>
    rw [_is_synced, Bool.or_eq_true] at h
    rcases h with h1 | h2
    · obtain ⟨a, b, c, d, suf, ha, hb, hc, hd, he⟩ := tsHere_exists _ h1
      exact ⟨[], a, b, c, d, suf, ha, hb, hc, hd, he⟩
    · obtain ⟨pre, a, b, c, d, suf, ha, hb, hc, hd, he⟩ := ih h2
      exact ⟨c0 :: pre, a, b, c, d, suf, ha, hb, hc, hd,
        by rw [List.cons_append, ← he]⟩

/-- Claim C6: the classifier returns true exactly on texts containing a
substring of shape bracket, two digits, colon, two digits; in particular the
one-line synced example is accepted and plain text is not. -/
theorem is_synced_iff_bracket_pattern :
    (∀ s : List Char, _is_synced s = true ↔
        ∃ pre a b c d suf, a.isDigit = true ∧ b.isDigit = true ∧
          c.isDigit = true ∧ d.isDigit = true ∧
          s = pre ++ '[' :: a :: b :: ':' :: c :: d :: suf)
  ∧ _is_synced ("[00:01.00]Hello".data) = true
  ∧ _is_synced ("Just plain text".data) = false := by
  refine ⟨fun s => ⟨is_synced_exists s, ?_⟩, by decide, by decide⟩
  rintro ⟨pre, a, b, c, d, suf, ha, hb, hc, hd, he⟩
  rw [he]
  exact is_synced_of_pattern pre a b c d suf ha hb hc hd

/-- Witness for C6: the bracket pattern extracted from the concrete synced
example. -/
theorem is_synced_iff_bracket_pattern_witness :
    ∃ pre a b c d suf, a.isDigit = true ∧ b.isDigit = true ∧
      c.isDigit = true ∧ d.isDigit = true ∧
      "[00:01.00]Hello".data = pre ++ '[' :: a :: b :: ':' :: c :: d :: suf :=
  (is_synced_iff_bracket_pattern.1 ("[00:01.00]Hello".data)).mp (by decide)

/-- The head of a cons is its last element only when the tail is empty. -/
theorem getLast?_cons_or (a : LyricLine) (l : List LyricLine) :
    (a :: l).getLast? = l.getLast?.or (some a) := by
  cases l with
  | nil => rfl
  | cons b m =>
    rw [List.getLast?_cons_cons]
    cases hx : (b :: m).getLast? with
    | none => exact absurd (List.getLast?_eq_none_iff.mp hx) (by simp)
    | some x => rfl

/-- The loop of `get_line_at` returns the last line not exceeding `t` among
the leading run of such lines, falling back to the accumulator. -/
theorem lineLoop_eq (t : Nat) (ls : List LyricLine) (cur : Option LyricLine) :
    lineLoop t ls cur = ((ls.takeWhile (withinT t)).getLast?).or cur := by
  induction ls generalizing cur with
  | nil => simp [lineLoop]
  | cons l ls ih =>
    by_cases h : l.milliseconds ≤ t
    · rw [lineLoop, if_pos h, ih, List.takeWhile_cons,
        if_pos (by simpa [withinT] using h), getLast?_cons_or, Option.or_assoc]
      simp
    · rw [lineLoop, if_neg h, List.takeWhile_cons,
        if_neg (by simpa [withinT] using h)]
      rfl

/-- Under sortedness, the leading run of lines within `t` is every line
within `t`. -/
theorem sorted_takeWhile_eq_filter (t : Nat) (ls : List LyricLine)
    (h : List.Sorted msLe ls) :
    ls.takeWhile (withinT t) = ls.filter (withinT t) := by
  induction ls with
  | nil => rfl
  | cons l ls ih =>
    rw [List.sorted_cons] at h
    by_cases hl : withinT t l = true
    · rw [List.takeWhile_cons, if_pos hl, List.filter_cons, if_pos hl, ih h.2]
    · rw [List.takeWhile_cons, if_neg (by simp [hl]), List.filter_cons,
        if_neg (by simp [hl])]
      have : ls.filter (withinT t) = [] := by
        rw [List.filter_eq_nil_iff]
        intro x hx
        have hle := h.1 x hx
        simp only [withinT, decide_eq_true_eq] at hl ⊢
        intro hxle
        exact hl (Nat.le_trans hle hxle)
      rw [this]

/-- Claim C4: on a document sorted by offset, `get_line_at` returns the last
line whose offset does not exceed `t`, and none when there are no lines or
`t` precedes the first offset; the concrete offsets 1000 and 5000 behave as
the claim lists. -/
theorem get_line_at_last_not_exceeding :
    (∀ (d : SyncedLyrics) (t : Nat), List.Sorted msLe d.lines →
        d.get_line_at t = (d.lines.filter (withinT t)).getLast?
        ∧ (d.lines = [] → d.get_line_at t = none)
        ∧ (∀ l0, d.lines.head? = some l0 → t < l0.milliseconds →
            d.get_line_at t = none))
  ∧ exDoc.get_line_at 5000 = some exLineB
  ∧ exDoc.get_line_at 7000 = some exLineB
  ∧ exDoc.get_line_at 500 = none := by
  refine ⟨?_, by decide, by decide, by decide⟩
  intro d t h
  have key : d.get_line_at t = (d.lines.filter (withinT t)).getLast? := by
    rw [SyncedLyrics.get_line_at, lineLoop_eq, Option.or_none,
      sorted_takeWhile_eq_filter t d.lines h]
  refine ⟨key, ?_, ?_⟩
  · intro hnil
    rw [key, hnil]
    rfl
  · intro l0 hhead hlt
    rw [key]
    have hfil : d.lines.filter (withinT t) = [] := by
      rw [List.filter_eq_nil_iff]
      intro x hx
      cases hl : d.lines with
      | nil => rw [hl] at hx; simp at hx
      | cons a as =>
        rw [hl] at hhead hx h
        rw [List.sorted_cons] at h
        obtain rfl : a = l0 := by simpa using hhead
        simp only [withinT, decide_eq_true_eq]
        rcases List.mem_cons.mp hx with rfl | hxs
        · omega
        · have hab := h.1 x hxs
          simp only [msLe] at hab
          omega
    rw [hfil]
    rfl

/-- Witness for C4: the sortedness hypothesis discharged on the concrete
document with offsets 1000 and 5000, at time 7000. -/
theorem get_line_at_last_not_exceeding_witness :
    exDoc.get_line_at 7000 = (exDoc.lines.filter (withinT 7000)).getLast? :=
  (get_line_at_last_not_exceeding.1 exDoc 7000 (by decide)).1

/-- Trailing-whitespace strip distributes over append: it either never
reaches the left part, or erases the right part entirely. -/
theorem rstripWs_append (a b : List Char) :
    rstripWs (a ++ b) = if rstripWs b = [] then rstripWs a else a ++ rstripWs b := by
  conv_lhs => rw [rstripWs]
  rw [List.reverse_append, List.dropWhile_append]
  by_cases hb : (List.dropWhile pyWs b.reverse).isEmpty
  · have hb2 : List.dropWhile pyWs b.reverse = [] := by
      simpa [List.isEmpty_iff] using hb
    rw [if_pos hb, if_pos (by simp [rstripWs, hb2])]
    rfl
  · have hb2 : ¬List.dropWhile pyWs b.reverse = [] := by
      simpa [List.isEmpty_iff] using hb
    rw [if_neg hb, if_neg (by simp [rstripWs, hb2]),
      List.reverse_append, List.reverse_reverse]
    rfl

/-- A digit character is not a separator character. -/
theorem digit_not_sep (c : Char) (h : c.isDigit = true) : isSep c = false := by
  by_cases h1 : c = '.'
  · subst h1; exact absurd h (by decide)
  · by_cases h2 : c = ':'
    · subst h2; exact absurd h (by decide)
    · simp [isSep, h1, h2]

/-- Taking and dropping digits across an all-digit prefix followed by the
closing bracket. -/
theorem takeWhile_digits (frac t : List Char) (h : ∀ c ∈ frac, c.isDigit = true) :
    (frac ++ ']' :: t).takeWhile Char.isDigit = frac ∧
    (frac ++ ']' :: t).dropWhile Char.isDigit = ']' :: t := by
  induction frac with
  | nil =>
    constructor
    · rw [List.nil_append, List.takeWhile_cons, if_neg (by decide)]
    · rw [List.nil_append, List.dropWhile_cons, if_neg (by decide)]
  | cons c cs ih =>
    have hc : c.isDigit = true := h c (List.mem_cons_self c cs)
    have hih := ih (fun x hx => h x (List.mem_cons_of_mem c hx))
    constructor
    · rw [List.cons_append, List.takeWhile_cons, if_pos hc, hih.1]
    · rw [List.cons_append, List.dropWhile_cons, if_pos hc, hih.2]

/-- Claim C5: a line whose leading tag has two-digit minutes and seconds, a
separator, and a 2- or 3-digit fraction parses to offset
minutes*60000 + seconds*1000 + (fraction padded to three digits), with the
display timestamp keeping exactly the first two fraction digits. -/
theorem parse_line_tag_semantics
    (m1 m2 s1 s2 sep : Char) (frac txt : List Char)
    (hm1 : m1.isDigit = true) (hm2 : m2.isDigit = true)
    (hs1 : s1.isDigit = true) (hs2 : s2.isDigit = true)
    (hsep : isSep sep = true)
    (hfrac : ∀ c ∈ frac, c.isDigit = true)
    (hlen : frac.length = 2 ∨ frac.length = 3) :
    ∃ rest, parse_line
        ('[' :: m1 :: m2 :: ':' :: s1 :: s2 :: sep :: (frac ++ ']' :: txt)) =
      some { timestamp := ['[', m1, m2, ':', s1, s2, '.'] ++ (norm3 frac).take 2 ++ [']'],
             text := rest,
             milliseconds :=
               (digitVal m1 * 10 + digitVal m2) * 60000 +
               (digitVal s1 * 10 + digitVal s2) * 1000 +
               natOfDigits (norm3 frac) } := by
  refine ⟨pyStrip (rstripWs txt), ?_⟩
  have key : pyStrip ('[' :: m1 :: m2 :: ':' :: s1 :: s2 :: sep :: (frac ++ ']' :: txt))
      = '[' :: m1 :: m2 :: ':' :: s1 :: s2 :: sep :: (frac ++ ']' :: rstripWs txt) := by
    rw [pyStrip]
    have h1 : lstripWs ('[' :: m1 :: m2 :: ':' :: s1 :: s2 :: sep :: (frac ++ ']' :: txt))
        = '[' :: m1 :: m2 :: ':' :: s1 :: s2 :: sep :: (frac ++ ']' :: txt) := by
      rw [lstripWs, List.dropWhile_cons, if_neg (by decide)]
    rw [h1]
    have h2 : '[' :: m1 :: m2 :: ':' :: s1 :: s2 :: sep :: (frac ++ ']' :: txt)
        = ('[' :: m1 :: m2 :: ':' :: s1 :: s2 :: sep :: frac ++ [']']) ++ txt := by
      simp
    have h3 : rstripWs ('[' :: m1 :: m2 :: ':' :: s1 :: s2 :: sep :: frac ++ [']'])
        = '[' :: m1 :: m2 :: ':' :: s1 :: s2 :: sep :: frac ++ [']'] := by
      rw [rstripWs_append]
      have hrb : rstripWs [']'] = [']'] := rfl
      rw [hrb, if_neg (by simp)]
    rw [h2, rstripWs_append]
    by_cases ht : rstripWs txt = []
    · rw [if_pos ht, h3, ht]
      simp
    · rw [if_neg ht]
      simp
  rw [parse_line, key]
  rw [if_neg (by simp)]
  have hcond : ((('[' : Char) = '[' : Bool) && m1.isDigit && m2.isDigit &&
      ((':' : Char) = ':' : Bool) && s1.isDigit && s2.isDigit) = true := by
    simp [hm1, hm2, hs1, hs2]
  rw [matchLine, if_pos hcond]
  rw [parseSepFrac, if_pos hsep]
  obtain ⟨f0, frest, rfl⟩ : ∃ f0 frest, frac = f0 :: frest := by
    cases frac with
    | nil => simp at hlen
    | cons f0 frest => exact ⟨f0, frest, rfl⟩
  have hdw : ((f0 :: frest) ++ ']' :: rstripWs txt).dropWhile isSep
      = (f0 :: frest) ++ ']' :: rstripWs txt := by
    rw [List.cons_append, List.dropWhile_cons,
      if_neg (by simp [digit_not_sep f0 (hfrac f0 (List.mem_cons_self f0 frest))])]
  rw [hdw]
  have htw := takeWhile_digits (f0 :: frest) (rstripWs txt) hfrac
  rw [parseFrac]
  rw [htw.1, htw.2]
  rw [if_pos (by rcases hlen with h | h <;> simp [h])]
  rfl

/-- Witness for C5: the tag with minutes 01, seconds 23, a dot separator and
fraction 45 followed by text parses to 83450 ms with display fraction 45. -/
theorem parse_line_tag_semantics_witness :
    ∃ rest, parse_line
        ('[' :: '0' :: '1' :: ':' :: '2' :: '3' :: '.' :: (['4', '5'] ++ ']' :: "Hi".data)) =
      some { timestamp := ['[', '0', '1', ':', '2', '3', '.'] ++ (norm3 ['4', '5']).take 2 ++ [']'],
             text := rest,
             milliseconds :=
               (digitVal '0' * 10 + digitVal '1') * 60000 +
               (digitVal '2' * 10 + digitVal '3') * 1000 +
               natOfDigits (norm3 ['4', '5']) } :=
  parse_line_tag_semantics '0' '1' '2' '3' '.' ['4', '5'] ("Hi".data)
    (by decide) (by decide) (by decide) (by decide) (by decide)
    (by decide) (by decide)

/-- A newline-free text splits into itself alone. -/
theorem splitNl_no_newline (l : List Char) (h : '\n' ∉ l) : splitNl l = [l] := by
  induction l with
  | nil => rfl
  | cons c rest ih =>
    have hc : ¬(c = '\n') := fun e => h (by subst e; exact List.mem_cons_self _ _)
    rw [splitNl, if_neg hc, ih (fun hm => h (List.mem_cons_of_mem c hm))]

/-- Splitting peels one newline-free line off the front. -/
theorem splitNl_line_append (l t : List Char) (h : '\n' ∉ l) :
    splitNl (l ++ '\n' :: t) = l :: splitNl t := by
  induction l with
  | nil => simp [splitNl]
  | cons c rest ih =>
    have hc : ¬(c = '\n') := fun e => h (by subst e; exact List.mem_cons_self _ _)
    rw [List.cons_append, splitNl, if_neg hc,
      ih (fun hm => h (List.mem_cons_of_mem c hm))]

/-- Splitting inverts joining for a non-empty list of newline-free lines. -/
theorem splitNl_joinNl (ls : List (List Char)) (hne : ls ≠ [])
    (h : ∀ l ∈ ls, '\n' ∉ l) : splitNl (joinNl ls) = ls := by
  induction ls with
  | nil => exact absurd rfl hne
  | cons l0 rest ih =>
    cases rest with
    | nil =>
      show splitNl (joinNl [l0]) = [l0]
      rw [joinNl]
      exact splitNl_no_newline l0 (h l0 (List.mem_cons_self _ _))
    | cons l1 rest2 =>
      show splitNl (l0 ++ '\n' :: joinNl (l1 :: rest2)) = l0 :: l1 :: rest2
      rw [splitNl_line_append l0 _ (h l0 (List.mem_cons_self _ _)),
        ih (by simp) (fun x hx => h x (List.mem_cons_of_mem _ hx))]

/-- Claim C3: the parser's output is always sorted non-decreasing by offset
(for every input text, duplicate and out-of-order offsets included, the
total function `_parse_lrc` returning a sorted list rather than failing),
and feeding the lines of a chronologically ordered text in reverse order
yields the same output list. -/
theorem parse_lrc_sorted_order_independent :
    (∀ s : List Char, List.Sorted msLe (_parse_lrc s))
  ∧ (∀ ls : List (List Char), (∀ l ∈ ls, '\n' ∉ l) →
      List.Sorted msLt (ls.filterMap parse_line) →
      _parse_lrc (joinNl ls.reverse) = _parse_lrc (joinNl ls)) := by
  constructor
  · intro s
    exact List.sorted_insertionSort msLe _
  · intro ls hnl hsort
    by_cases hls : ls = []
    · rw [hls]
      rfl
    · have h1 : splitNl (joinNl ls) = ls := splitNl_joinNl ls hls hnl
      have h2 : splitNl (joinNl ls.reverse) = ls.reverse :=
        splitNl_joinNl ls.reverse (by simpa using hls)
          (fun l hl => hnl l (List.mem_reverse.mp hl))
      rw [_parse_lrc, _parse_lrc, h1, h2, List.filterMap_reverse]
      have hLe : List.Sorted msLe (ls.filterMap parse_line) :=
        hsort.imp (fun hab => Nat.le_of_lt hab)
      rw [hLe.insertionSort_eq]
      have hperm : (List.insertionSort msLe (ls.filterMap parse_line).reverse).Perm
          (ls.filterMap parse_line) :=
        (List.perm_insertionSort msLe _).trans (List.reverse_perm _)
      have hsorted1 : List.Sorted msLe
          (List.insertionSort msLe (ls.filterMap parse_line).reverse) :=
        List.sorted_insertionSort msLe _
      have hndL : ((ls.filterMap parse_line).map LyricLine.milliseconds).Nodup :=
        (List.pairwise_map).mpr (hsort.imp (fun hab => Nat.ne_of_lt hab))
      have hnd : ((List.insertionSort msLe (ls.filterMap parse_line).reverse).map
          LyricLine.milliseconds).Nodup :=
        ((hperm.map LyricLine.milliseconds).nodup_iff).mpr hndL
      have hlt1 : List.Sorted msLt
          (List.insertionSort msLe (ls.filterMap parse_line).reverse) := by
        have hne := (List.pairwise_map).mp hnd
        exact (hsorted1.and hne).imp (fun hab => Nat.lt_of_le_of_ne hab.1 hab.2)
      exact List.eq_of_perm_of_sorted hperm hlt1 hsort

/-- Witness for C3: the two-line chronological text and its reversal parse
to the same sorted list. -/
theorem parse_lrc_sorted_order_independent_witness :
    _parse_lrc (joinNl (["[00:01.00]A".data, "[00:02.00]B".data]).reverse) =
      _parse_lrc (joinNl ["[00:01.00]A".data, "[00:02.00]B".data]) :=
  parse_lrc_sorted_order_independent.2
    ["[00:01.00]A".data, "[00:02.00]B".data] (by decide) (by decide)

end YTM
